import Mathlib

/-!
Shallow embedding of the streaming-field-extraction and document-recovery
core of the Ai-Builder repository.

Embedded source functions:
* `extractPartialValue` — frontend/src/App.tsx, lines 6-52 (the incremental
  field extractor run once per field per chunk);
* the final-buffer handling of `handlePromptSubmit` — frontend/src/App.tsx,
  lines 118-138 (modelled as `finalizeGeneration`);
* `parseJsonResponse` — backend/src/index-gemini.ts, lines 104-135 (the
  cleaning / recovery routine).

JavaScript strings are modelled as `List Char` (all inputs of interest are
ASCII, so JS UTF-16 indexing and `List Char` indexing agree).  `JSON.parse`
is modelled by `jsonParse` below: a JSON text parser returning `none`
exactly where `JSON.parse` throws.  The one modelling deviation, noted at
`parseStrBody`, is that `\uXXXX` escapes denoting lone UTF-16 surrogates
are rejected (Lean `Char` holds unicode scalar values only); no input in
this development contains a `\u` escape.
-/

/-! ## Basic JavaScript string operations -/

/-- JSON whitespace, as accepted by `JSON.parse` around tokens. -/
def isJsonWs (c : Char) : Bool :=
  c = ' ' || c = '\t' || c = '\n' || c = '\r'

/-- Whitespace removed by JavaScript `String.prototype.trim` (the
characters that occur in practice: ASCII whitespace, NBSP, BOM and the
unicode line separators). -/
def isJsWs (c : Char) : Bool :=
  c = ' ' || c = '\t' || c = '\n' || c = '\r' ||
  c = Char.ofNat 11 || c = Char.ofNat 12 || c = Char.ofNat 160 ||
  c = Char.ofNat 0xFEFF || c = Char.ofNat 0x2028 || c = Char.ofNat 0x2029

/-- JavaScript `s.trim()`. -/
def jsTrim (s : List Char) : List Char :=
  ((s.dropWhile isJsWs).reverse.dropWhile isJsWs).reverse

/-- JavaScript `s.substring(a, b)`: both indices clamped to the string
length, swapped when given in decreasing order. -/
def jsSubstring (s : List Char) (a b : Nat) : List Char :=
  (s.take (max a b)).drop (min a b)

/-- Bool-valued prefix test (`pat` is an initial segment of `s`). -/
def leadsWith : List Char → List Char → Bool
  | [], _ => true
  | _ :: _, [] => false
  | p :: ps, c :: cs => p = c && leadsWith ps cs

/-- JavaScript `s.includes(pat)`. -/
def containsSub (s pat : List Char) : Bool :=
  (List.range (s.length + 1)).any (fun i => leadsWith pat (s.drop i))

/-- JavaScript `s.lastIndexOf(pat)`, as an `Option` (`none` for `-1`). -/
def lastIndexOfSub (s pat : List Char) : Option Nat :=
  ((List.range (s.length + 1)).filter (fun i => leadsWith pat (s.drop i))).getLast?

/-- JavaScript `s.indexOf(c)` for a single character, as an `Option`. -/
def firstIdxOfChar (s : List Char) (c : Char) : Option Nat :=
  s.findIdx? (fun x => x = c)

/-- JavaScript `s.lastIndexOf(c)` for a single character, as an `Option`. -/
def lastIdxOfChar (s : List Char) (c : Char) : Option Nat :=
  (s.reverse.findIdx? (fun x => x = c)).map (fun k => s.length - 1 - k)

/-! ## A model of `JSON.parse`

`Json` is the value domain.  Numbers keep their lexical parts (sign,
integer digits, fraction digits, exponent), which is all the development
needs (JavaScript truthiness of a parsed number only depends on whether
its mantissa is zero). -/

structure JNumber where
  neg : Bool
  intPart : List Char
  fracPart : List Char
  expNeg : Bool
  expDigits : List Char
deriving DecidableEq, Repr

inductive Json where
  | null
  | bool (b : Bool)
  | num (n : JNumber)
  | str (s : List Char)
  | arr (elems : List Json)
  | obj (fields : List (List Char × Json))

/-- JavaScript property read `data.k` on a parsed value for which the
access does not throw (anything but `null`): `none` models `undefined`.
With duplicate keys, `JSON.parse` keeps the last binding.  A property
access on a parsed `null` throws a TypeError in JavaScript; that path is
modelled at the use site (`finalizeGeneration`), where the source's
`catch` turns the throw into its parse-failure message. -/
def jsGet (v : Json) (k : List Char) : Option Json :=
  match v with
  | .obj fs => (fs.reverse.find? (fun kv => kv.1 = k)).map (fun kv => kv.2)
  | _ => none

/-- JavaScript truthiness of a parsed JSON value. -/
def jsTruthy : Json → Bool
  | .null => false
  | .bool b => b
  | .num n => (n.intPart ++ n.fracPart).any (fun c => c ≠ '0')
  | .str s => !s.isEmpty
  | .arr _ => true
  | .obj _ => true

/-- JavaScript `v || ""` as used in `setHtml(data.html || "")`. -/
def jsOr (v : Json) : Json :=
  if jsTruthy v then v else .str []

def hexVal? (c : Char) : Option Nat :=
  if '0' ≤ c ∧ c ≤ '9' then some (c.toNat - 48)
  else if 'a' ≤ c ∧ c ≤ 'f' then some (c.toNat - 87)
  else if 'A' ≤ c ∧ c ≤ 'F' then some (c.toNat - 55)
  else none

/-- Decoded character of a one-letter JSON string escape. -/
def escChar? (e : Char) : Option Char :=
  if e = '"' then some '"'
  else if e = '\\' then some '\\'
  else if e = '/' then some '/'
  else if e = 'b' then some (Char.ofNat 8)
  else if e = 'f' then some (Char.ofNat 12)
  else if e = 'n' then some '\n'
  else if e = 'r' then some '\r'
  else if e = 't' then some '\t'
  else none

/-- Body of a JSON string literal: the input starts just after the opening
quote; on success returns the decoded contents and the remainder after the
closing quote.  Raw control characters are rejected, as by `JSON.parse`.
`\uXXXX` escapes for lone surrogates are rejected (see the file header). -/
def parseStrBody : List Char → Option (List Char × List Char)
  | [] => none
  | c :: rest =>
    if c = '"' then some ([], rest)
    else if c = '\\' then
      match rest with
      | [] => none
      | e :: rest' =>
        if e = 'u' then
          match rest' with
          | a :: b :: c2 :: d :: rest'' =>
            match hexVal? a, hexVal? b, hexVal? c2, hexVal? d with
            | some ha, some hb, some hc, some hd =>
              let n := ((ha * 16 + hb) * 16 + hc) * 16 + hd
              if n < 0xD800 ∨ (0xDFFF < n ∧ n < 0x110000) then
                (parseStrBody rest'').map (fun p => (Char.ofNat n :: p.1, p.2))
              else none
            | _, _, _, _ => none
          | _ => none
        else
          match escChar? e with
          | some d => (parseStrBody rest').map (fun p => (d :: p.1, p.2))
          | none => none
    else if c.toNat < 32 then none
    else (parseStrBody rest).map (fun p => (c :: p.1, p.2))

def skipWs (s : List Char) : List Char := s.dropWhile isJsonWs

/-- Exponent part of a JSON number (empty `expDigits` encodes: absent). -/
def parseExpPart (ng : Bool) (ip fd : List Char) (s : List Char) :
    Option (Json × List Char) :=
  match s with
  | 'e' :: r =>
    let p : Bool × List Char :=
      match r with
      | '+' :: rr => (false, rr)
      | '-' :: rr => (true, rr)
      | _ => (false, r)
    let ed := p.2.takeWhile Char.isDigit
    if ed.isEmpty then none
    else some (.num ⟨ng, ip, fd, p.1, ed⟩, p.2.drop ed.length)
  | 'E' :: r =>
    let p : Bool × List Char :=
      match r with
      | '+' :: rr => (false, rr)
      | '-' :: rr => (true, rr)
      | _ => (false, r)
    let ed := p.2.takeWhile Char.isDigit
    if ed.isEmpty then none
    else some (.num ⟨ng, ip, fd, p.1, ed⟩, p.2.drop ed.length)
  | _ => some (.num ⟨ng, ip, fd, false, []⟩, s)

/-- Fraction part of a JSON number (empty `fracPart` encodes: absent). -/
def parseFracPart (ng : Bool) (ip : List Char) (s : List Char) :
    Option (Json × List Char) :=
  match s with
  | '.' :: r =>
    let fd := r.takeWhile Char.isDigit
    if fd.isEmpty then none else parseExpPart ng ip fd (r.drop fd.length)
  | _ => parseExpPart ng ip [] s

/-- JSON number token.  A leading `0` is a complete integer part (JSON
forbids further digits; a following digit is left in the remainder and
makes the surrounding context fail, as with `JSON.parse`). -/
def parseNumber (s : List Char) : Option (Json × List Char) :=
  let p : Bool × List Char :=
    match s with
    | '-' :: r => (true, r)
    | _ => (false, s)
  match p.2 with
  | '0' :: r => parseFracPart p.1 ['0'] r
  | c :: r =>
    if c.isDigit then
      parseFracPart p.1 (c :: r.takeWhile Char.isDigit) (r.dropWhile Char.isDigit)
    else none
  | [] => none

mutual

/-- One JSON value, starting at the given (whitespace-free) position. -/
def parseValue : Nat → List Char → Option (Json × List Char)
  | 0, _ => none
  | fuel + 1, s =>
    match s with
    | [] => none
    | '"' :: rest => (parseStrBody rest).map (fun p => (Json.str p.1, p.2))
    | '{' :: rest =>
      (match skipWs rest with
       | '}' :: rem => some (Json.obj [], rem)
       | other => (parseMembers fuel other).map (fun p => (Json.obj p.1, p.2)))
    | '[' :: rest =>
      (match skipWs rest with
       | ']' :: rem => some (Json.arr [], rem)
       | other => (parseElems fuel other).map (fun p => (Json.arr p.1, p.2)))
    | 'n' :: 'u' :: 'l' :: 'l' :: rest => some (Json.null, rest)
    | 't' :: 'r' :: 'u' :: 'e' :: rest => some (Json.bool true, rest)
    | 'f' :: 'a' :: 'l' :: 's' :: 'e' :: rest => some (Json.bool false, rest)
    | c :: _ => if c = '-' ∨ c.isDigit then parseNumber s else none

/-- Nonempty member list of a JSON object, up to and including the
closing `}`. -/
def parseMembers : Nat → List Char → Option (List (List Char × Json) × List Char)
  | 0, _ => none
  | fuel + 1, s =>
    match s with
    | '"' :: rest =>
      (match parseStrBody rest with
       | none => none
       | some (k, rem) =>
         match skipWs rem with
         | ':' :: rem2 =>
           (match parseValue fuel (skipWs rem2) with
            | none => none
            | some (v, rem3) =>
              match skipWs rem3 with
              | ',' :: rem4 =>
                (parseMembers fuel (skipWs rem4)).map
                  (fun p => ((k, v) :: p.1, p.2))
              | '}' :: rem4 => some ([(k, v)], rem4)
              | _ => none)
         | _ => none)
    | _ => none

/-- Nonempty element list of a JSON array, up to and including the
closing `]`. -/
def parseElems : Nat → List Char → Option (List Json × List Char)
  | 0, _ => none
  | fuel + 1, s =>
    match parseValue fuel s with
    | none => none
    | some (v, rem) =>
      match skipWs rem with
      | ',' :: rem2 => (parseElems fuel (skipWs rem2)).map (fun p => (v :: p.1, p.2))
      | ']' :: rem2 => some ([v], rem2)
      | _ => none

end

/-- Model of `JSON.parse`: `none` exactly where `JSON.parse` throws.  The
fuel `s.length + 1` is sufficient: every nesting level consumes at least
one character before recursing. -/
def jsonParse (s : List Char) : Option Json :=
  match parseValue (s.length + 1) (skipWs s) with
  | some (v, rest) => if skipWs rest = [] then some v else none
  | none => none

/-! ## The incremental field extractor (frontend/src/App.tsx, lines 6-52)

The source builds `keyPattern` with the template literal
`` `"${key}":\\s*"` ``.  Inside a template literal `\\` denotes one
backslash, so the pattern is the literal character sequence
`"<key>":\s*"` (quote, key, quote, colon, backslash, `s`, `*`, quote),
and it is searched verbatim by `String.prototype.lastIndexOf` — the
`\s*` is not interpreted as a regular expression. -/

def keyPatternOf (key : String) : List Char :=
  '"' :: key.data ++ ['"', ':', '\\', 's', '*', '"']

/-- Result of one extraction.  The source function returns only the string;
`complete` records which internal path produced it: `true` when the forward
scan broke on an accepted terminating quote, `false` when the scan ran off
the end of the buffer or never ran (this is the `complete` flag of the
spec's ExtractionResult). -/
structure ExtractionResult where
  value : List Char
  complete : Bool
deriving DecidableEq, Repr

/-- The terminator test of the scan loop: the current character is `"`,
the previous character (if any) is not a backslash, and
`substring(i+1, i+4).startsWith(",")` or `…("}")` — which inspects only
position `i + 1`. -/
def codeTermB (s : List Char) (i : Nat) : Bool :=
  (s[i]? == some '"') &&
  (i == 0 || !(s[i-1]? == some '\\')) &&
  ((s[i+1]? == some ',') || (s[i+1]? == some '}'))

/-- The `while` loop of `extractPartialValue`, with explicit fuel (the
caller passes `s.length - i`, which makes the fuel exact).  Returns
`some (endIndex, true)` when a terminator was accepted, `some (s.length,
false)` when the loop hit the last character, and `none` when the loop
body never ran (then `endIndex` stays `-1`).  `ob` is the `openBraces`
counter; it is updated as in the source and never consulted. -/
def scanFuel (s : List Char) : Nat → Nat → Nat → Option (Nat × Bool)
  | 0, _, _ => none
  | fuel + 1, i, ob =>
    if i < s.length then
      if codeTermB s i then some (i, true)
      else
        let c := (s[i]?).getD ' '
        let ob' := if c = '{' then ob + 1
                   else if c = '}' ∧ 0 < ob then ob - 1 else ob
        if i = s.length - 1 then some (s.length, false)
        else scanFuel s fuel (i + 1) ob'
    else none

def scanFrom (s : List Char) (i ob : Nat) : Option (Nat × Bool) :=
  scanFuel s (s.length - i) i ob

/-- Global replacement `.replace(/\n/g, "\\n")`. -/
def replaceLF (l : List Char) : List Char :=
  l.flatMap (fun c => if c = '\n' then ['\\', 'n'] else [c])

/-- Global replacement `.replace(/\r/g, "\\r")`. -/
def replaceCR (l : List Char) : List Char :=
  l.flatMap (fun c => if c = '\r' then ['\\', 'r'] else [c])

/-- The escape-resolution step of `extractPartialValue` (the spec's
EscapeResolver): when the span is nonempty and does not contain the
two-character sequence `",`, re-wrap it in quotes — after escaping raw
newlines and carriage returns — and `JSON.parse` it; on failure return the
raw span.  The source also applies `.replace(/\\"/g, '\\"')` first, which
replaces `\"` by `\"` and is the identity, so it is omitted here.  A
successful parse of a text that starts with `"` is always a `Json.str`;
the `some _` branch is unreachable and returns the raw span. -/
def resolveSpan (potentialValue : List Char) : List Char :=
  if potentialValue.length > 0 ∧ ¬ (containsSub potentialValue ['"', ',']) then
    match jsonParse ('"' :: (replaceCR (replaceLF potentialValue) ++ ['"'])) with
    | some (.str v) => v
    | some _ => potentialValue
    | none => potentialValue
  else potentialValue

/-- The extractor (frontend/src/App.tsx, lines 6-52). -/
def extractPartialValue (key : String) (partialJson : List Char) : ExtractionResult :=
  let keyPattern := keyPatternOf key
  match lastIndexOfSub partialJson keyPattern with
  | none => ⟨[], false⟩
  | some startIndex =>
    let valueStartIndex := startIndex + keyPattern.length
    match scanFrom partialJson valueStartIndex 0 with
    | none => ⟨partialJson.drop valueStartIndex, false⟩
    | some (endIndex, isTerm) =>
      ⟨resolveSpan (jsSubstring partialJson valueStartIndex endIndex), isTerm⟩

/-! ## The document recoverer (backend/src/index-gemini.ts, lines 104-135) -/

def btick : Char := Char.ofNat 96

def backticks : List Char := [btick, btick, btick]

def endsWithTicks (t : List Char) : Bool :=
  decide (3 ≤ t.length) && (t.drop (t.length - 3) == backticks)

/-- Captured group of `jsonString.match(/^```(?:json)?\s*([\s\S]*?)\s*```$/)`,
already `.trim()`-ed (the greedy leading `\s*`, the lazy core and the
trailing `\s*` anchored by `$` make the captured group
whitespace-trimmed, so the source's `.trim()` is the identity on it).
The optional `json` tag is consumed greedily, with backtracking when
consuming it leaves no room for the closing fence. -/
def fenceCapture (s : List Char) : Option (List Char) :=
  if s.take 3 = backticks then
    let r := s.drop 3
    if r.take 4 = ['j', 's', 'o', 'n'] ∧ endsWithTicks (r.drop 4) then
      some (jsTrim ((r.drop 4).take ((r.drop 4).length - 3)))
    else if endsWithTicks r then
      some (jsTrim (r.take (r.length - 3)))
    else none
  else none

/-- The fallback: slice from the first `{` to the last `}` (inclusive)
when both exist in that order. -/
def braceSlice (s : List Char) : List Char :=
  match firstIdxOfChar s '{', lastIdxOfChar s '}' with
  | some a, some b => if a < b then jsSubstring s a (b + 1) else s
  | _, _ => s

/-- The cleaning pipeline of `parseJsonResponse`: trim; use the fenced
interior when the fence matches with a truthy (nonempty) captured group,
else the outer-brace slice; finally, if the result still starts with the
word `json`, skip to the first `{` (JavaScript `substring(-1)` clamps to
`0`, so a missing `{` leaves the string unchanged). -/
def cleanJsonString (aiResponseText : List Char) : List Char :=
  let s := jsTrim aiResponseText
  let js1 := match fenceCapture s with
    | some c => if c.isEmpty then braceSlice s else c
    | none => braceSlice s
  if js1.take 4 = ['j', 's', 'o', 'n'] then
    match firstIdxOfChar js1 '{' with
    | some k => js1.drop k
    | none => js1
  else js1

/-- Message of the error thrown when parsing fails after cleaning: it
carries `aiResponseText.substring(0, 200)` of the original text. -/
def parseErrMsg (aiResponseText : List Char) : List Char :=
  "Failed to parse AI response as JSON. Content: ".data ++
    aiResponseText.take 200 ++ "...".data

/-- `parseJsonResponse` (backend/src/index-gemini.ts, lines 104-135).  The
source throws on failure; every caller in the backend catches the throw
and converts it to a response value, so the routine is modelled as
`Except`, the thrown message becoming the `error` payload. -/
def parseJsonResponse (aiResponseText : List Char) : Except (List Char) Json :=
  match jsonParse (cleanJsonString aiResponseText) with
  | some v => .ok v
  | none => .error (parseErrMsg aiResponseText)

/-! ## Final-buffer handling of `handlePromptSubmit`
(frontend/src/App.tsx, lines 118-138) -/

/-- Outcome of the frontend's final `JSON.parse(accumulatedJson)` block:
`parseFailure` is the catch branch (`"Failed to process generated
code."`); `generationError` is the `if (data.error)` branch, carrying
`data.error` (rendered by the source as `` `Generation Error:
${data.error}` ``); `invalidStructure` is `"Invalid data structure
received."`; `success` carries the three stored values `data.html || ""`,
`data.css || ""`, `data.js || ""`. -/
inductive FinalOutcome where
  | parseFailure
  | generationError (err : Json)
  | invalidStructure
  | success (html css js : Json)

/-- Truthiness of `data.error` (an absent key is `undefined`, falsy). -/
def errTruthy (data : Json) : Bool :=
  match jsGet data "error".data with
  | some v => jsTruthy v
  | none => false

/-- Final-buffer handling.  When the buffer parses to `null`, the access
`data.error` throws a TypeError in JavaScript; it is raised inside the
same `try` block as `JSON.parse`, so the `catch` produces the identical
parse-failure message — hence `some .null` maps to `parseFailure`.  On
every other parsed value property access returns `undefined` rather than
throwing, and the `if`/`else` chain of the source runs. -/
def finalizeGeneration (accumulatedJson : List Char) : FinalOutcome :=
  match jsonParse accumulatedJson with
  | none => .parseFailure
  | some .null => .parseFailure
  | some data =>
    if errTruthy data then
      .generationError ((jsGet data "error".data).getD .null)
    else if (jsGet data "html".data).isSome ∧ (jsGet data "css".data).isSome ∧
            (jsGet data "js".data).isSome then
      .success (jsOr ((jsGet data "html".data).getD .null))
        (jsOr ((jsGet data "css".data).getD .null))
        (jsOr ((jsGet data "js".data).getD .null))
    else .invalidStructure

/-! ## Spec-side definitions

`specTermB` renders the specification's wording of the terminator test
(claim C2): a quote that is not escaped — the immediately preceding
character is not a backslash that is itself unescaped, i.e. the run of
backslashes before the quote has even length — with a field separator `,`
or object close `}` among the next few characters (the three characters
the source's `substring(i + 1, i + 4)` window covers).  It is compared
against `codeTermB`, the test the source actually performs. -/

/-- Number of consecutive backslashes immediately before position `i`. -/
def bsRunBefore (s : List Char) (i : Nat) : Nat :=
  ((s.take i).reverse.takeWhile (fun c => c = '\\')).length

def specTermB (s : List Char) (i : Nat) : Bool :=
  (s[i]? == some '"') && (bsRunBefore s i % 2 == 0) &&
  (((s[i+1]? == some ',') || (s[i+1]? == some '}')) ||
   ((s[i+2]? == some ',') || (s[i+2]? == some '}')) ||
   ((s[i+3]? == some ',') || (s[i+3]? == some '}')))

/-- First position at or after `vs` satisfying the spec's terminator test. -/
def firstSpecTerm (s : List Char) (vs : Nat) : Option Nat :=
  (List.range' vs (s.length - vs)).find? (specTermB s)

/-- First position at or after `vs` satisfying the source's terminator
test — the position at which the scan loop breaks. -/
def firstCodeTerm (s : List Char) (vs : Nat) : Option Nat :=
  (List.range' vs (s.length - vs)).find? (codeTermB s)

/-! ## Concrete inputs used by the individual claims -/

/-- A fully well-formed three-field document (claim C1). -/
def c1Buf : List Char := "\x7b\"html\":\"hello\",\"css\":\"\",\"js\":\"\"\x7d".data

/-- A fully well-formed three-field document, streamed in prefixes
(claim C7). -/
def c7Doc : List Char := "\x7b\"html\":\"a\",\"css\":\"b\",\"js\":\"c\"\x7d".data

/-- Buffer `"html":\s*"a\\",` — the value `a\\` ends in an escaped
backslash, then an unescaped quote followed by `,` (claim C2). -/
def c2BufA : List Char := "\"html\":\\s*\"a\\\\\",".data

/-- Buffer `"html":\s*"a" ,` — a quote followed by a space and then `,`
(claim C2). -/
def c2BufB : List Char := "\"html\":\\s*\"a\" ,".data

/-- Buffer `"html":\s*"abc",` — a plainly terminated value (claim C2
witness). -/
def c2WitBuf : List Char := "\"html\":\\s*\"abc\",".data

/-- Buffer `"html":\s*"a\",b",` — the tentative value `a\",b` contains
the two-character sequence `",` (claim C8). -/
def c8Buf : List Char := "\"html\":\\s*\"a\\\",b\",".data

/-- Buffer `"html":\s*"ab"` — ends in an unescaped quote with nothing
after it (claim C10). -/
def c10Buf : List Char := "\"html\":\\s*\"ab\"".data

/-- Span `\t` followed by a raw newline (claim C6): plain re-wrapping
fails to parse, yet the source's resolution succeeds after escaping the
newline and returns a decoded value different from the raw span. -/
def c6CexSpan : List Char := ['\\', 't', '\n']

/-- Span `line1\` — truncated mid-escape (claim C6 witness). -/
def c6WitSpan : List Char := "line1\\".data

/-! # Theorems -/

/-! ## The scan loop finds the first accepted terminator -/

theorem scanFuel_spec (s : List Char) :
    ∀ n i ob, n = s.length - i → i < s.length →
      scanFuel s n i ob =
        match firstCodeTerm s i with
        | some e => some (e, true)
        | none => some (s.length, false) := by
  intro n
  induction n with
  | zero => intro i ob hn hi; omega
  | succ n ih =>
    intro i ob hn hi
    rw [scanFuel, if_pos hi]
    by_cases ht : codeTermB s i
    · rw [if_pos ht]
      have hfc : firstCodeTerm s i = some i := by
        rw [firstCodeTerm, ← hn, List.range'_succ, List.find?_cons_of_pos _ ht]
      rw [hfc]
    · rw [if_neg ht]
      by_cases hlast : i = s.length - 1
      · have h1 : s.length - i = 1 := by omega
        have hfc : firstCodeTerm s i = none := by
          rw [firstCodeTerm, h1]
          have : List.range' i 1 = [i] := rfl
          rw [this, List.find?_cons_of_neg _ ht]
          rfl
        simp only [hfc, if_pos hlast]
      · have h2 : i + 1 < s.length := by omega
        have h3 : n = s.length - (i + 1) := by omega
        have hfc : firstCodeTerm s i = firstCodeTerm s (i + 1) := by
          rw [firstCodeTerm, firstCodeTerm, ← hn, ← h3, List.range'_succ,
            List.find?_cons_of_neg _ ht]
        simp only [if_neg hlast]
        rw [ih (i + 1) _ h3 h2, hfc]

theorem scanFrom_term (s : List Char) (i ob e : Nat) (hi : i < s.length)
    (h : firstCodeTerm s i = some e) : scanFrom s i ob = some (e, true) := by
  rw [scanFrom, scanFuel_spec s _ i ob rfl hi, h]

theorem scanFrom_noterm (s : List Char) (i ob : Nat) (hi : i < s.length)
    (h : firstCodeTerm s i = none) : scanFrom s i ob = some (s.length, false) := by
  rw [scanFrom, scanFuel_spec s _ i ob rfl hi, h]

/-! ## Extraction, by cases on the search and the scan -/

theorem jsSubstring_to_end (s : List Char) (a : Nat) (h : a ≤ s.length) :
    jsSubstring s a s.length = s.drop a := by
  rw [jsSubstring, Nat.max_eq_right h, Nat.min_eq_left h, List.take_length]

theorem extract_of_term (key : String) (pj : List Char) (si e : Nat)
    (h : lastIndexOfSub pj (keyPatternOf key) = some si)
    (h2 : si + (keyPatternOf key).length < pj.length)
    (he : firstCodeTerm pj (si + (keyPatternOf key).length) = some e) :
    extractPartialValue key pj =
      ⟨resolveSpan (jsSubstring pj (si + (keyPatternOf key).length) e), true⟩ := by
  rw [extractPartialValue]
  simp only [h, scanFrom_term pj _ 0 e h2 he]

theorem extract_of_noterm (key : String) (pj : List Char) (si : Nat)
    (h : lastIndexOfSub pj (keyPatternOf key) = some si)
    (h2 : si + (keyPatternOf key).length < pj.length)
    (hn : firstCodeTerm pj (si + (keyPatternOf key).length) = none) :
    extractPartialValue key pj =
      ⟨resolveSpan (pj.drop (si + (keyPatternOf key).length)), false⟩ := by
  rw [extractPartialValue]
  simp only [h, scanFrom_noterm pj _ 0 h2 hn]
  rw [jsSubstring_to_end _ _ (Nat.le_of_lt h2)]

/-! ## Absent pattern: empty, incomplete result -/

theorem lastIndexOfSub_eq_none (s pat : List Char)
    (h : containsSub s pat = false) : lastIndexOfSub s pat = none := by
  rw [lastIndexOfSub]
  have hf : (List.range (s.length + 1)).filter
      (fun i => leadsWith pat (s.drop i)) = [] := by
    rw [List.filter_eq_nil_iff]
    intro a ha hp
    have : containsSub s pat = true := by
      rw [containsSub, List.any_eq_true]
      exact ⟨a, ha, hp⟩
    rw [h] at this
    exact Bool.false_ne_true this
  rw [hf]
  rfl

theorem extract_eq_nil_of_no_occ (key : String) (pj : List Char)
    (h : containsSub pj (keyPatternOf key) = false) :
    extractPartialValue key pj = ⟨[], false⟩ := by
  rw [extractPartialValue]
  simp only [lastIndexOfSub_eq_none pj _ h]

theorem leadsWith_subset :
    ∀ (pat t : List Char), leadsWith pat t = true → ∀ c ∈ pat, c ∈ t := by
  intro pat
  induction pat with
  | nil => intro t _ c hc; exact absurd hc (List.not_mem_nil c)
  | cons p ps ih =>
    intro t h c hc
    cases t with
    | nil => exact absurd h (by rw [leadsWith]; exact Bool.false_ne_true)
    | cons x xs =>
      rw [leadsWith, Bool.and_eq_true, decide_eq_true_eq] at h
      rcases List.mem_cons.mp hc with hcp | hcs
      · exact List.mem_cons.mpr (Or.inl (hcp.trans h.1))
      · exact List.mem_cons.mpr (Or.inr (ih xs h.2 c hcs))

theorem containsSub_eq_false (s pat : List Char) (c : Char)
    (hc : c ∈ pat) (hs : c ∉ s) : containsSub s pat = false := by
  by_contra h
  rw [Bool.not_eq_false, containsSub, List.any_eq_true] at h
  obtain ⟨i, _, hp⟩ := h
  exact hs (List.drop_subset i s (leadsWith_subset pat _ hp c hc))

theorem backslash_mem_keyPattern (key : String) : '\\' ∈ keyPatternOf key := by
  rw [keyPatternOf]
  exact List.mem_cons.mpr (Or.inr (List.mem_append_right _ (by decide)))

/-! ## Claims C1, C7, C9 -/

/-- Claim C1 (code bug).  The claim states a completeness round-trip: on a
fully well-formed three-field document, `extract` should return
`complete = true` with the value obtained by parsing the document and
reading the key.  On the code this fails: the searched key pattern is the
literal eleven-character string `"html":\s*"` (the `\\s*` of the template
literal is two source characters, searched verbatim by `lastIndexOf`, not
an optional-whitespace regular expression), which never occurs in a
well-formed JSON document; extraction of `html` from
`{"html":"hello","css":"","js":""}` yields the empty, incomplete result
although direct parsing yields `"hello"`. -/
theorem c1_roundTrip_fails :
    extractPartialValue "html" c1Buf = ⟨[], false⟩ ∧
    (jsonParse c1Buf).bind (fun o => jsGet o "html".data) =
      some (Json.str "hello".data) :=
  ⟨rfl, rfl⟩

/-- Claim C7 (code bug).  Streaming a well-formed document in chunks can
never make any field's extraction complete, because no prefix of a
well-formed JSON document contains the literal key pattern `"html":\s*"`
(a backslash is involved): on every prefix of the chunked document
`{"html":"a","css":"b","js":"c"}` the extractor returns the empty,
incomplete result, so the convergence the claim describes is unreachable
on the code. -/
theorem c7_stream_never_completes (n : Nat) :
    extractPartialValue "html" (c7Doc.take n) = ⟨[], false⟩ := by
  apply extract_eq_nil_of_no_occ
  apply containsSub_eq_false _ _ '\\' (backslash_mem_keyPattern _)
  intro hmem
  have hin : '\\' ∈ c7Doc := List.take_subset n c7Doc hmem
  have hno : '\\' ∉ c7Doc := by decide
  exact hno hin

/-- Claim C9 (confirmed).  Extraction is total (the embedding is a total
function, mirroring the source, whose only throwing operation sits inside
`try`/`catch`), and a buffer with no occurrence of the field's key pattern
yields the empty, incomplete result — never a failure. -/
theorem c9_extraction_totality (key : String) (pj : List Char)
    (h : containsSub pj (keyPatternOf key) = false) :
    extractPartialValue key pj = ⟨[], false⟩ :=
  extract_eq_nil_of_no_occ key pj h

theorem c9_extraction_totality_witness :
    containsSub "hello".data (keyPatternOf "html") = false ∧
    extractPartialValue "html" "hello".data = ⟨[], false⟩ :=
  ⟨rfl, c9_extraction_totality "html" "hello".data rfl⟩

/-! ## Claim C2: terminator selection -/

/-- Claim C2 (counterexample).  The claim describes the terminator as a
quote that is not escaped — where the preceding backslash must itself be
unescaped to count — with `,` or `}` among the next few characters.  Both
parts fail on the code.  In `c2BufA` (value text `a\\` then `",`) the
quote at position 14 is preceded by an even run of backslashes and
followed directly by `,`, so it satisfies the claim's terminator test
(`firstSpecTerm … = some 14`), yet the source — which only checks that
the single preceding character is not a backslash — rejects it and runs
off the buffer, producing an incomplete result.  In `c2BufB` (value text
`a" ,`) the quote at position 12 has a `,` two characters later, inside
the claim's lookahead window, yet the source — which only inspects the
immediately following character — rejects it, again producing an
incomplete result instead of the claimed `complete = true`. -/
theorem c2_counterexample :
    lastIndexOfSub c2BufA (keyPatternOf "html") = some 0 ∧
    firstSpecTerm c2BufA 11 = some 14 ∧
    extractPartialValue "html" c2BufA = ⟨"a\\\\\",".data, false⟩ ∧
    lastIndexOfSub c2BufB (keyPatternOf "html") = some 0 ∧
    firstSpecTerm c2BufB 11 = some 12 ∧
    extractPartialValue "html" c2BufB = ⟨"a\" ,".data, false⟩ :=
  ⟨rfl, rfl, rfl, rfl, rfl, rfl⟩

/-- Claim C2, amended (proved).  During the forward scan the value is
terminated at the first `"` whose immediately preceding character is not a
backslash (regardless of whether that backslash is itself escaped) and
whose immediately following character is `,` or `}`; the extractor then
returns the resolved span `[valueStart, terminator)` with
`complete = true`.  If no such quote exists before the buffer ends, the
value span extends to the end of the buffer, the result is incomplete,
and the resolved span-to-end is returned. -/
theorem c2_amended_terminator (key : String) (pj : List Char) (si : Nat)
    (h : lastIndexOfSub pj (keyPatternOf key) = some si)
    (h2 : si + (keyPatternOf key).length < pj.length) :
    (∀ e, firstCodeTerm pj (si + (keyPatternOf key).length) = some e →
      extractPartialValue key pj =
        ⟨resolveSpan (jsSubstring pj (si + (keyPatternOf key).length) e), true⟩) ∧
    (firstCodeTerm pj (si + (keyPatternOf key).length) = none →
      extractPartialValue key pj =
        ⟨resolveSpan (pj.drop (si + (keyPatternOf key).length)), false⟩) :=
  ⟨fun e he => extract_of_term key pj si e h h2 he,
   fun hn => extract_of_noterm key pj si h h2 hn⟩

theorem c2_amended_terminator_witness :
    extractPartialValue "html" c2WitBuf = ⟨"abc".data, true⟩ :=
  ((c2_amended_terminator "html" c2WitBuf 0 rfl (by decide)).1 14 rfl).trans
    (by rfl)

/-! ## Claim C8: a span containing the sequence quote-comma stays raw -/

theorem resolveSpan_of_contains (pv : List Char)
    (h : containsSub pv ['"', ','] = true) : resolveSpan pv = pv := by
  rw [resolveSpan, if_neg]
  intro hcond
  rw [h] at hcond
  exact hcond.2 rfl

/-- Claim C8 (confirmed).  When a terminator is accepted but the tentative
value contains the literal two-character sequence `",`, the extractor
returns the raw buffer substring, with no JSON escape interpretation
applied to it. -/
theorem c8_ambiguous_raw (key : String) (pj : List Char) (si e : Nat)
    (h : lastIndexOfSub pj (keyPatternOf key) = some si)
    (h2 : si + (keyPatternOf key).length < pj.length)
    (he : firstCodeTerm pj (si + (keyPatternOf key).length) = some e)
    (hc : containsSub (jsSubstring pj (si + (keyPatternOf key).length) e)
      ['"', ','] = true) :
    extractPartialValue key pj =
      ⟨jsSubstring pj (si + (keyPatternOf key).length) e, true⟩ := by
  rw [extract_of_term key pj si e h h2 he, resolveSpan_of_contains _ hc]

theorem c8_ambiguous_raw_witness :
    extractPartialValue "html" c8Buf = ⟨"a\\\",b".data, true⟩ :=
  c8_ambiguous_raw "html" c8Buf 0 16 rfl (by decide) rfl rfl

/-! ## Claim C6: escape resolution -/

theorem resolveSpan_of_parse_none (pv : List Char)
    (h : jsonParse ('"' :: (replaceCR (replaceLF pv) ++ ['"'])) = none) :
    resolveSpan pv = pv := by
  rw [resolveSpan]
  split
  · rw [h]
  · rfl

/-- Claim C6 (counterexample).  For the span backslash-`t`-newline, the
claim's interpretation — re-wrapping the raw span in quotes and parsing it
as a single JSON string — fails, because a raw newline is illegal inside a
JSON string literal; the claim then requires the raw span back, unmodified.
The source instead escapes the raw newline first, parses successfully, and
returns the decoded text (a tab and a newline), which differs from the raw
span. -/
theorem c6_counterexample :
    jsonParse ('"' :: (c6CexSpan ++ ['"'])) = none ∧
    resolveSpan c6CexSpan = ['\t', '\n'] ∧
    resolveSpan c6CexSpan ≠ c6CexSpan :=
  ⟨rfl, rfl, by decide⟩

/-- Claim C6, amended (proved).  The resolver first escapes raw newline
and carriage-return characters, then re-wraps the span in quotes and
parses it as a single JSON string; whenever that interpretation fails, the
raw span is returned unmodified.  The resolver is total — the source wraps
its only throwing call in `try`/`catch` — so it never raises. -/
theorem c6_amended_resolver (pv : List Char)
    (h : jsonParse ('"' :: (replaceCR (replaceLF pv) ++ ['"'])) = none) :
    resolveSpan pv = pv :=
  resolveSpan_of_parse_none pv h

theorem c6_amended_resolver_witness :
    resolveSpan c6WitSpan = c6WitSpan :=
  c6_amended_resolver c6WitSpan rfl

/-! ## Claim C10: a buffer ending in an unescaped quote

The span handed to the resolver ends in an unescaped quote.  The key fact
is that re-wrapping such a span can never parse: scanning the wrapped
text, the body scanner either fails, or closes the string early and
leaves a nonempty remainder ending in `"` — so the top-level parse always
rejects, and the raw span (quote included) is returned. -/

theorem shape_drop (cs : List Char) (k : Nat) (hk : k + 2 ≤ cs.length)
    (h1 : cs[cs.length - 1]? = some '"')
    (h2 : cs[cs.length - 2]? = some '"')
    (h3 : cs[cs.length - 3]? ≠ some '\\') :
    2 ≤ (cs.drop k).length ∧
    (cs.drop k)[(cs.drop k).length - 1]? = some '"' ∧
    (cs.drop k)[(cs.drop k).length - 2]? = some '"' ∧
    (cs.drop k)[(cs.drop k).length - 3]? ≠ some '\\' := by
  have hl : (cs.drop k).length = cs.length - k := List.length_drop k cs
  refine ⟨by omega, ?_, ?_, ?_⟩
  · rw [List.getElem?_drop, hl]
    have he : k + (cs.length - k - 1) = cs.length - 1 := by omega
    rw [he]; exact h1
  · rw [List.getElem?_drop, hl]
    have he : k + (cs.length - k - 2) = cs.length - 2 := by omega
    rw [he]; exact h2
  · rw [List.getElem?_drop, hl]
    by_cases h3k : k + 3 ≤ cs.length
    · have he : k + (cs.length - k - 3) = cs.length - 3 := by omega
      rw [he]; exact h3
    · have he : k + (cs.length - k - 3) = cs.length - 2 := by omega
      rw [he, h2]
      intro hcon
      exact absurd (Option.some.inj hcon) (by decide)

theorem parseStrBody_rem_shape_aux :
    ∀ N : Nat, ∀ cs : List Char, cs.length ≤ N → 2 ≤ cs.length →
      cs[cs.length - 1]? = some '"' →
      cs[cs.length - 2]? = some '"' →
      cs[cs.length - 3]? ≠ some '\\' →
      ∀ v rem, parseStrBody cs = some (v, rem) →
        rem ≠ [] ∧ rem.getLast? = some '"' := by
  intro N
  induction N with
  | zero =>
    intro cs hN hlen _ _ _ v rem _
    omega
  | succ N ih =>
    intro cs hN hlen h1 h2 h3 v rem hp
    rcases cs with _ | ⟨c, rest⟩
    · simp at hlen
    · rw [parseStrBody.eq_def] at hp
      by_cases hq : c = '"'
      · subst hq
        simp only [if_true, Option.some.injEq, Prod.mk.injEq] at hp
        have hrem : rem = rest := hp.2.symm
        subst hrem
        have hlr : 1 ≤ rem.length := by
          simp only [List.length_cons] at hlen
          omega
        refine ⟨fun h0 => by rw [h0] at hlr; simp at hlr, ?_⟩
        rw [List.getLast?_eq_getElem?]
        have hlen1 : ('"' :: rem).length - 1 = rem.length := by simp
        rw [hlen1] at h1
        have hsp : rem.length = (rem.length - 1) + 1 := by omega
        have hidx : ('"' :: rem)[rem.length]? = rem[rem.length - 1]? := by
          conv_lhs => rw [hsp]
          exact List.getElem?_cons_succ
        rw [hidx] at h1
        exact h1
      · simp only [if_neg hq] at hp
        by_cases hb : c = '\\'
        · subst hb
          simp only [eq_self_iff_true, if_true] at hp
          rcases rest with _ | ⟨e, rest'⟩
          · simp at hp
          · by_cases hu : e = 'u'
            · subst hu
              simp only [eq_self_iff_true, if_true] at hp
              rcases rest' with _ | ⟨a, rest1⟩
              · simp at hp
              · rcases rest1 with _ | ⟨b, rest2⟩
                · simp at hp
                · rcases rest2 with _ | ⟨c2, rest3⟩
                  · simp at hp
                  · rcases rest3 with _ | ⟨d, rest''⟩
                    · simp at hp
                    · simp only [] at hp
                      by_cases hbig : 2 ≤ rest''.length
                      · rcases hha : hexVal? a with _ | ha
                        · rw [hha] at hp; simp at hp
                        · rcases hhb : hexVal? b with _ | hb2
                          · rw [hha, hhb] at hp; simp at hp
                          · rcases hhc : hexVal? c2 with _ | hc
                            · rw [hha, hhb, hhc] at hp; simp at hp
                            · rcases hhd : hexVal? d with _ | hd
                              · rw [hha, hhb, hhc, hhd] at hp; simp at hp
                              · rw [hha, hhb, hhc, hhd] at hp
                                simp only [] at hp
                                by_cases hr : (((ha * 16 + hb2) * 16 + hc) * 16 + hd < 55296 ∨
                                    (57343 < ((ha * 16 + hb2) * 16 + hc) * 16 + hd ∧
                                      ((ha * 16 + hb2) * 16 + hc) * 16 + hd < 1114112))
                                · rw [if_pos hr, Option.map_eq_some'] at hp
                                  obtain ⟨⟨v', rem'⟩, hps, hfe⟩ := hp
                                  have hrem : rem = rem' := by
                                    have hsnd := congrArg Prod.snd hfe
                                    simpa using hsnd.symm
                                  subst hrem
                                  have hlc : ('\\' :: 'u' :: a :: b :: c2 :: d :: rest'').length
                                      = rest''.length + 6 := by simp
                                  have hsh := shape_drop
                                    ('\\' :: 'u' :: a :: b :: c2 :: d :: rest'') 6
                                    (by omega) h1 h2 h3
                                  have hdr : ('\\' :: 'u' :: a :: b :: c2 :: d :: rest'').drop 6
                                      = rest'' := rfl
                                  rw [hdr] at hsh
                                  exact ih rest'' (by simp at hN; omega) hsh.1 hsh.2.1
                                    hsh.2.2.1 hsh.2.2.2 v' rem hps
                                · rw [if_neg hr] at hp
                                  exact Option.noConfusion hp
                      · -- the tail is at most one character long, so `d` sits on
                        -- one of the two trailing quotes and is not a hex digit
                        have hlc : ('\\' :: 'u' :: a :: b :: c2 :: d :: rest'').length
                            = rest''.length + 6 := by simp
                        have hd5 : ('\\' :: 'u' :: a :: b :: c2 :: d :: rest'')[5]? = some d := by
                          simp
                        have hdq : d = '"' := by
                          rcases Nat.lt_or_ge rest''.length 1 with hr | hr
                          · have h5 : ('\\' :: 'u' :: a :: b :: c2 :: d :: rest'').length - 1 = 5 := by
                              omega
                            rw [h5, hd5] at h1
                            exact Option.some.inj h1
                          · have h5 : ('\\' :: 'u' :: a :: b :: c2 :: d :: rest'').length - 2 = 5 := by
                              omega
                            rw [h5, hd5] at h2
                            exact Option.some.inj h2
                        subst hdq
                        have h4 : hexVal? '"' = none := by decide
                        rcases hha : hexVal? a with _ | ha <;>
                          rcases hhb : hexVal? b with _ | hb2 <;>
                          rcases hhc : hexVal? c2 with _ | hc <;>
                          rw [hha, hhb, hhc, h4] at hp <;> simp at hp
            · simp only [if_neg hu] at hp
              rcases hesc : escChar? e with _ | d
              · rw [hesc] at hp; simp at hp
              · rw [hesc] at hp
                simp only [] at hp
                rw [Option.map_eq_some'] at hp
                obtain ⟨⟨v', rem'⟩, hps, hfe⟩ := hp
                have hrem : rem = rem' := by
                  have hsnd := congrArg Prod.snd hfe
                  simpa using hsnd.symm
                subst hrem
                have hlc : ('\\' :: e :: rest').length = rest'.length + 2 := by simp
                by_cases hbig : 2 ≤ rest'.length
                · have hsh := shape_drop ('\\' :: e :: rest') 2 (by omega) h1 h2 h3
                  have hdr : ('\\' :: e :: rest').drop 2 = rest' := rfl
                  rw [hdr] at hsh
                  exact ih rest' (by simp at hN; omega) hsh.1 hsh.2.1
                    hsh.2.2.1 hsh.2.2.2 v' rem hps
                · rcases Nat.lt_or_ge rest'.length 1 with hr | hr
                  · -- total length 2: position 0 should be a quote
                    have h0 : ('\\' :: e :: rest').length - 2 = 0 := by omega
                    rw [h0] at h2
                    simp at h2
                  · -- total length 3: position 0 should not be a backslash
                    have h0 : ('\\' :: e :: rest').length - 3 = 0 := by omega
                    rw [h0] at h3
                    simp at h3
        · simp only [if_neg hb] at hp
          by_cases hctl : c.toNat < 32
          · simp only [if_pos hctl] at hp
            simp at hp
          · simp only [if_neg hctl] at hp
            rw [Option.map_eq_some'] at hp
            obtain ⟨⟨v', rem'⟩, hps, hfe⟩ := hp
            have hrem : rem = rem' := by
              have hsnd := congrArg Prod.snd hfe
              simpa using hsnd.symm
            subst hrem
            have hlc : (c :: rest).length = rest.length + 1 := by simp
            by_cases hbig : 2 ≤ rest.length
            · have hsh := shape_drop (c :: rest) 1 (by omega) h1 h2 h3
              have hdr : (c :: rest).drop 1 = rest := rfl
              rw [hdr] at hsh
              exact ih rest (by simp at hN; omega) hsh.1 hsh.2.1
                hsh.2.2.1 hsh.2.2.2 v' rem hps
            · -- total length 2: position 0 should be a quote, but c is not one
              have h0 : (c :: rest).length - 2 = 0 := by omega
              rw [h0] at h2
              simp at h2
              exact absurd h2 hq

theorem parseStrBody_rem_shape (cs : List Char) (hlen : 2 ≤ cs.length)
    (h1 : cs[cs.length - 1]? = some '"')
    (h2 : cs[cs.length - 2]? = some '"')
    (h3 : cs[cs.length - 3]? ≠ some '\\') :
    ∀ v rem, parseStrBody cs = some (v, rem) →
      rem ≠ [] ∧ rem.getLast? = some '"' :=
  parseStrBody_rem_shape_aux cs.length cs (Nat.le_refl _) hlen h1 h2 h3

theorem jsonParse_wrapped_none (cs : List Char) (hlen : 2 ≤ cs.length)
    (h1 : cs[cs.length - 1]? = some '"')
    (h2 : cs[cs.length - 2]? = some '"')
    (h3 : cs[cs.length - 3]? ≠ some '\\') :
    jsonParse ('"' :: cs) = none := by
  rw [jsonParse]
  have hsk : skipWs ('"' :: cs) = '"' :: cs := by
    rw [skipWs, List.dropWhile_cons]
    simp [show isJsonWs '"' = false from rfl]
  have hflen : ('"' :: cs).length + 1 = (cs.length + 1) + 1 := by simp
  have hpv : parseValue (('"' :: cs).length + 1) (skipWs ('"' :: cs)) =
      (parseStrBody cs).map (fun p => (Json.str p.1, p.2)) := by
    rw [hsk, hflen, parseValue.eq_def]
    rfl
  rw [hpv]
  rcases hps : parseStrBody cs with _ | ⟨v, rem⟩
  · rfl
  · obtain ⟨hne, hlast⟩ := parseStrBody_rem_shape cs hlen h1 h2 h3 v rem hps
    simp only [Option.map_some']
    rw [if_neg]
    intro hnil
    rw [skipWs, List.dropWhile_eq_nil_iff] at hnil
    have hm : '"' ∈ rem := by
      apply List.getElem?_mem
      rw [← List.getLast?_eq_getElem?]
      exact hlast
    have hbad := hnil '"' hm
    exact absurd hbad (by decide)

theorem replaceLF_append (a b : List Char) :
    replaceLF (a ++ b) = replaceLF a ++ replaceLF b := by
  rw [replaceLF, replaceLF, replaceLF, List.flatMap_append]

theorem replaceCR_append (a b : List Char) :
    replaceCR (a ++ b) = replaceCR a ++ replaceCR b := by
  rw [replaceCR, replaceCR, replaceCR, List.flatMap_append]

theorem rp_single_getLast (a0 : Char) (h : a0 ≠ '\\') :
    ∃ x, (replaceCR (replaceLF [a0])).getLast? = some x ∧ x ≠ '\\' := by
  by_cases h1 : a0 = '\n'
  · subst h1; exact ⟨'n', rfl, by decide⟩
  · by_cases h2 : a0 = '\r'
    · subst h2; exact ⟨'r', rfl, by decide⟩
    · refine ⟨a0, ?_, h⟩
      have e1 : replaceLF [a0] = [a0] := by simp [replaceLF, h1]
      have e2 : replaceCR [a0] = [a0] := by simp [replaceCR, h2]
      rw [e1, e2]
      rfl

theorem rp_nil_iff (a : List Char) :
    replaceCR (replaceLF a) = [] ↔ a = [] := by
  constructor
  · intro h
    rcases a with _ | ⟨c, t⟩
    · rfl
    · exfalso
      have hd : replaceCR (replaceLF (c :: t)) =
          replaceCR (replaceLF [c]) ++ replaceCR (replaceLF t) := by
        have : (c :: t) = [c] ++ t := rfl
        rw [this, replaceLF_append, replaceCR_append]
      rw [hd] at h
      have h1 : replaceCR (replaceLF [c]) = [] := (List.append_eq_nil.mp h).1
      by_cases hc1 : c = '\n'
      · subst hc1; exact absurd h1 (by decide)
      · by_cases hc2 : c = '\r'
        · subst hc2; exact absurd h1 (by decide)
        · have e1 : replaceLF [c] = [c] := by simp [replaceLF, hc1]
          have e2 : replaceCR [c] = [c] := by simp [replaceCR, hc2]
          rw [e1, e2] at h1
          exact List.cons_ne_nil _ _ h1
  · intro h; subst h; rfl

theorem resolveSpan_raw_of_trailing_quote (pv : List Char)
    (h1 : pv.getLast? = some '"')
    (h2 : pv[pv.length - 2]? ≠ some '\\') :
    resolveSpan pv = pv := by
  apply resolveSpan_of_parse_none
  have hne : pv ≠ [] := by
    intro h0; rw [h0] at h1; exact Option.noConfusion h1
  have hdec := List.dropLast_append_getLast hne
  have hgl : pv.getLast hne = '"' := by
    have h' : pv.getLast? = some (pv.getLast hne) := by
      conv_lhs => rw [← hdec]
      exact List.getLast?_concat _
    exact Option.some.inj (h'.symm.trans h1)
  have hpv : pv = pv.dropLast ++ ['"'] := by
    conv_lhs => rw [← hdec]
    rw [hgl]
  rw [hpv, replaceLF_append, replaceCR_append]
  have hq1 : replaceCR (replaceLF ['"']) = ['"'] := rfl
  rw [hq1]
  rw [List.append_assoc]
  have hcs2 : (['"'] ++ ['"'] : List Char) = ['"', '"'] := rfl
  rw [hcs2]
  apply jsonParse_wrapped_none
  · simp
  · rw [← List.getLast?_eq_getElem?, List.getLast?_append]
    rfl
  · have hli : (replaceCR (replaceLF pv.dropLast) ++ ['"', '"']).length =
        (replaceCR (replaceLF pv.dropLast)).length + 2 := by simp
    rw [hli]
    have he : (replaceCR (replaceLF pv.dropLast)).length + 2 - 2 =
        (replaceCR (replaceLF pv.dropLast)).length := by omega
    rw [he, List.getElem?_append_right (Nat.le_refl _)]
    simp
  · rcases hA : pv.dropLast with _ | ⟨c0, t0⟩
    · decide
    · rw [← hA]
      have hAne : pv.dropLast ≠ [] := by rw [hA]; exact List.cons_ne_nil _ _
      have hBne : replaceCR (replaceLF pv.dropLast) ≠ [] := by
        intro hB0
        exact hAne ((rp_nil_iff _).mp hB0)
      -- the character three from the end is the last character of the
      -- escaped prefix, which is never a backslash
      have hAdec := List.dropLast_append_getLast hAne
      have ha0 : pv.dropLast.getLast hAne ≠ '\\' := by
        intro hbs
        apply h2
        rw [hpv]
        have hlp : (pv.dropLast ++ ['"']).length = pv.dropLast.length + 1 := by simp
        rw [hlp]
        have he : pv.dropLast.length + 1 - 2 = pv.dropLast.length - 1 := by omega
        rw [he]
        have hlt : pv.dropLast.length - 1 < pv.dropLast.length := by
          have := List.length_pos.mpr hAne
          omega
        rw [List.getElem?_append_left hlt]
        rw [← List.getLast?_eq_getElem?]
        have h' : pv.dropLast.getLast? = some (pv.dropLast.getLast hAne) := by
          conv_lhs => rw [← hAdec]
          exact List.getLast?_concat _
        rw [h', hbs]
      obtain ⟨x, hx, hxne⟩ := rp_single_getLast (pv.dropLast.getLast hAne) ha0
      have hBlast : (replaceCR (replaceLF pv.dropLast)).getLast? = some x := by
        conv_lhs => rw [← hAdec]
        rw [replaceLF_append, replaceCR_append, List.getLast?_append, hx]
        rfl
      have hli : (replaceCR (replaceLF pv.dropLast) ++ ['"', '"']).length =
          (replaceCR (replaceLF pv.dropLast)).length + 2 := by simp
      rw [hli]
      have he : (replaceCR (replaceLF pv.dropLast)).length + 2 - 3 =
          (replaceCR (replaceLF pv.dropLast)).length - 1 := by omega
      rw [he]
      have hlt : (replaceCR (replaceLF pv.dropLast)).length - 1 <
          (replaceCR (replaceLF pv.dropLast)).length := by
        have := List.length_pos.mpr hBne
        omega
      rw [List.getElem?_append_left hlt, ← List.getLast?_eq_getElem?, hBlast]
      intro hcon
      exact hxne (Option.some.inj hcon)

/-- Claim C10 (confirmed).  When the forward scan reaches the last
character of the buffer without having accepted a terminator — including
when that last character is itself an unescaped `"` (its predecessor is
not a backslash), which would be accepted once a following `,` or `}`
arrived — the value span runs through the end of the buffer, and the
returned best-effort partial value is the raw span including that
trailing quote (the resolver cannot reinterpret a span that ends in an
unescaped quote: the re-wrapped text never parses). -/
theorem c10_trailing_quote (key : String) (pj : List Char) (si : Nat)
    (h : lastIndexOfSub pj (keyPatternOf key) = some si)
    (h2 : si + (keyPatternOf key).length < pj.length)
    (hn : firstCodeTerm pj (si + (keyPatternOf key).length) = none)
    (hq : pj.getLast? = some '"')
    (hb : pj[pj.length - 2]? ≠ some '\\') :
    extractPartialValue key pj =
      ⟨pj.drop (si + (keyPatternOf key).length), false⟩ ∧
    (pj.drop (si + (keyPatternOf key).length)).getLast? = some '"' := by
  have hlen : (pj.drop (si + (keyPatternOf key).length)).length =
      pj.length - (si + (keyPatternOf key).length) := List.length_drop _ _
  have hget : (pj.drop (si + (keyPatternOf key).length)).getLast? = some '"' := by
    rw [List.getLast?_eq_getElem?, List.getElem?_drop, hlen]
    have he : si + (keyPatternOf key).length +
        (pj.length - (si + (keyPatternOf key).length) - 1) = pj.length - 1 := by
      omega
    rw [he, ← List.getLast?_eq_getElem?]
    exact hq
  have hpen : (pj.drop (si + (keyPatternOf key).length))[(pj.drop (si + (keyPatternOf key).length)).length - 2]? ≠ some '\\' := by
    rw [List.getElem?_drop, hlen]
    by_cases hc : si + (keyPatternOf key).length + 2 ≤ pj.length
    · have he : si + (keyPatternOf key).length +
          (pj.length - (si + (keyPatternOf key).length) - 2) = pj.length - 2 := by
        omega
      rw [he]
      exact hb
    · have he : si + (keyPatternOf key).length +
          (pj.length - (si + (keyPatternOf key).length) - 2) = pj.length - 1 := by
        omega
      rw [he, ← List.getLast?_eq_getElem?, hq]
      intro hcon
      exact absurd (Option.some.inj hcon) (by decide)
  refine ⟨?_, hget⟩
  rw [extract_of_noterm key pj si h h2 hn,
    resolveSpan_raw_of_trailing_quote _ hget hpen]

theorem c10_trailing_quote_witness :
    extractPartialValue "html" c10Buf = ⟨"ab\"".data, false⟩ :=
  ((c10_trailing_quote "html" c10Buf 0 rfl (by decide) rfl rfl
    (by decide)).1).trans (by rfl)

/-! ## Claims C4 and C5: final-document recovery outcomes -/

/-- Claim C4 (counterexample).  The claim says an `error` key short-circuits
to a domain failure whatever its value.  The source tests `if (data.error)`,
a JavaScript truthiness test: for the buffer with an empty-string error
value the test is false and the recovery falls through to the shape check,
reporting an invalid structure instead of a domain error. -/
theorem c4_counterexample :
    finalizeGeneration "\x7b\"error\": \"\"\x7d".data = .invalidStructure := rfl

/-- Claim C4, amended (proved).  For every final buffer whose parsed object
carries an `error` key with a truthy value (for a string: non-empty), the
recovery short-circuits to the domain-level failure carrying that value,
before any shape check; in particular the spec's example buffer yields the
domain error `blocked by safety filter`, not a malformed-document
failure. -/
theorem c4_amended_domain_error (buf : List Char) (data errVal : Json)
    (hp : jsonParse buf = some data)
    (he : jsGet data "error".data = some errVal)
    (ht : jsTruthy errVal = true) :
    finalizeGeneration buf = .generationError errVal := by
  rcases data with _ | b | n | s | es | fs
  · exact Option.noConfusion he
  · exact Option.noConfusion he
  · exact Option.noConfusion he
  · exact Option.noConfusion he
  · exact Option.noConfusion he
  · rw [finalizeGeneration, hp]
    have het : errTruthy (Json.obj fs) = true := by
      rw [errTruthy, he]
      exact ht
    simp only [het, if_true, he]
    rfl

theorem c4_amended_domain_error_witness :
    finalizeGeneration "\x7b\"error\": \"blocked by safety filter\"\x7d".data =
      .generationError (Json.str "blocked by safety filter".data) :=
  c4_amended_domain_error _
    (Json.obj [("error".data, Json.str "blocked by safety filter".data)])
    (Json.str "blocked by safety filter".data) rfl rfl rfl

/-- Claim C5 (counterexample).  The claim says a required key that is
present but not string-typed yields a malformed-document failure.  The
frontend recovery only tests `data.html !== undefined` (and likewise for
the other keys): with `html` bound to the number `1` it takes the success
path and stores the number, reporting no failure at all. -/
theorem c5_counterexample :
    finalizeGeneration "\x7b\"html\":1,\"css\":\"a\",\"js\":\"b\"\x7d".data =
      .success (Json.num ⟨false, ['1'], [], false, []⟩)
        (Json.str "a".data) (Json.str "b".data) := rfl

/-- Claim C5, amended (proved).  Whenever the final buffer cannot be
parsed — or parses to `null`, whose `data.error` access throws a
TypeError caught by the same handler — the frontend recovery yields the
parse-failure value; when the buffer parses to a non-null value with one
of the keys `html`, `css`, `js` missing (undefined) and no truthy `error`
key, it yields `invalidStructure`.  All failures are delivered as values,
never as uncaught faults; a present but non-string value is not rejected.
The backend cleaner, when parsing fails after cleaning, produces the
failure value carrying a diagnostic excerpt: the first 200 characters of
the original text, inside a message of total length at most 249. -/
theorem c5_amended_malformed :
    (∀ buf, jsonParse buf = none → finalizeGeneration buf = .parseFailure) ∧
    (∀ buf, jsonParse buf = some .null → finalizeGeneration buf = .parseFailure) ∧
    (∀ buf data, jsonParse buf = some data → data ≠ .null →
      (∀ v, jsGet data "error".data = some v → jsTruthy v = false) →
      (jsGet data "html".data = none ∨ jsGet data "css".data = none ∨
        jsGet data "js".data = none) →
      finalizeGeneration buf = .invalidStructure) ∧
    (∀ ai, jsonParse (cleanJsonString ai) = none →
      parseJsonResponse ai = .error (parseErrMsg ai) ∧
      (parseErrMsg ai).length ≤ 249) := by
  refine ⟨?_, ?_, ?_, ?_⟩
  · intro buf hp
    rw [finalizeGeneration, hp]
  · intro buf hp
    rw [finalizeGeneration, hp]
  · intro buf data hp hnull herr hmiss
    rcases data with _ | b | n | s | es | fs
    · exact absurd rfl hnull
    · rw [finalizeGeneration, hp]; rfl
    · rw [finalizeGeneration, hp]; rfl
    · rw [finalizeGeneration, hp]; rfl
    · rw [finalizeGeneration, hp]; rfl
    · rw [finalizeGeneration, hp]
      have het : errTruthy (Json.obj fs) = false := by
        rw [errTruthy]
        rcases hje : jsGet (Json.obj fs) "error".data with _ | v
        · rfl
        · exact herr v hje
      simp only [het, if_false, Bool.false_eq_true]
      rw [if_neg]
      intro hcon
      rcases hmiss with hm | hm | hm
      · rw [hm] at hcon
        simp at hcon
      · rw [hm] at hcon
        simp at hcon
      · rw [hm] at hcon
        simp at hcon
  · intro ai hp
    constructor
    · rw [parseJsonResponse, hp]
    · rw [parseErrMsg]
      have h1 : ("Failed to parse AI response as JSON. Content: ".data).length = 46 := rfl
      have h2 : ("...".data).length = 3 := rfl
      have h3 : (ai.take 200).length ≤ 200 := by
        rw [List.length_take]
        omega
      rw [List.length_append, List.length_append, h1, h2]
      omega

theorem c5_amended_malformed_witness :
    finalizeGeneration "not json".data = .parseFailure ∧
    finalizeGeneration "null".data = .parseFailure ∧
    finalizeGeneration "\x7b\"html\":\"a\"\x7d".data = .invalidStructure ∧
    parseJsonResponse "hello".data = .error (parseErrMsg "hello".data) :=
  ⟨c5_amended_malformed.1 "not json".data rfl,
   c5_amended_malformed.2.1 "null".data rfl,
   c5_amended_malformed.2.2.1 "\x7b\"html\":\"a\"\x7d".data
     (Json.obj [("html".data, Json.str "a".data)]) rfl
     (fun h => Json.noConfusion h)
     (fun _ hv => Option.noConfusion hv) (Or.inr (Or.inl rfl)),
   (c5_amended_malformed.2.2.2 "hello".data rfl).1⟩

/-! ## Claim C3: recovery stripping -/

theorem dropWhile_eq_self_of_head (p : Char → Bool) (l : List Char) (c : Char)
    (hh : l.head? = some c) (hc : p c = false) : l.dropWhile p = l := by
  cases l with
  | nil => exact absurd hh (by simp)
  | cons x t =>
    have hx : x = c := by simpa using hh
    subst hx
    rw [List.dropWhile_cons, hc]
    simp

theorem jsTrim_eq_self (l : List Char) (c c' : Char)
    (hh : l.head? = some c) (hc : isJsWs c = false)
    (hl : l.getLast? = some c') (hc' : isJsWs c' = false) : jsTrim l = l := by
  rw [jsTrim, dropWhile_eq_self_of_head _ _ _ hh hc,
    dropWhile_eq_self_of_head _ _ _ (by rw [List.head?_reverse]; exact hl) hc',
    List.reverse_reverse]

theorem jsTrim_nl_wrap (d : List Char) (hh : d.head? = some '{')
    (hl : d.getLast? = some '}') :
    jsTrim ('\n' :: (d ++ ['\n'])) = d := by
  have hne : d ≠ [] := by
    intro h0; rw [h0] at hh; exact Option.noConfusion hh
  rw [jsTrim]
  have e1 : List.dropWhile isJsWs ('\n' :: (d ++ ['\n'])) = d ++ ['\n'] := by
    rw [List.dropWhile_cons]
    simp only [show isJsWs '\n' = true from rfl, if_true]
    apply dropWhile_eq_self_of_head _ _ '{' ?_ rfl
    cases d with
    | nil => exact absurd rfl hne
    | cons x t =>
      have hx : x = '{' := by simpa using hh
      subst hx
      rfl
  rw [e1]
  have e2 : (d ++ ['\n']).reverse = '\n' :: d.reverse := by simp
  rw [e2, List.dropWhile_cons]
  simp only [show isJsWs '\n' = true from rfl, if_true]
  have e3 : List.dropWhile isJsWs d.reverse = d.reverse := by
    apply dropWhile_eq_self_of_head _ _ '}' ?_ rfl
    rw [List.head?_reverse]
    exact hl
  rw [e3, List.reverse_reverse]

theorem findIdx?_append_none (p : Char → Bool) (l₁ l₂ : List Char)
    (h : ∀ x ∈ l₁, p x = false) :
    ∀ i, List.findIdx? p (l₁ ++ l₂) i = List.findIdx? p l₂ (l₁.length + i) := by
  induction l₁ with
  | nil => intro i; simp
  | cons x t ih =>
    intro i
    rw [List.cons_append, List.findIdx?_cons, h x (List.mem_cons_self x t)]
    simp only [Bool.false_eq_true, if_false]
    rw [ih (fun y hy => h y (List.mem_cons_of_mem x hy)) (i + 1)]
    have he : t.length + (i + 1) = (x :: t).length + i := by simp; omega
    rw [he]

theorem two_le_length_of_braces (d : List Char) (hh : d.head? = some '{')
    (hl : d.getLast? = some '}') : 2 ≤ d.length := by
  rcases d with _ | ⟨x, t⟩
  · exact absurd hh (by simp)
  · rcases t with _ | ⟨y, t'⟩
    · have hx : x = '{' := by simpa using hh
      have hy : x = '}' := by simpa using hl
      rw [hx] at hy
      exact absurd hy (by decide)
    · simp

theorem wrap_decomp (d : List Char) :
    (('\n' :: d) ++ ['\n']) ++ backticks = '\n' :: (d ++ "\n```".data) := by
  rw [List.append_assoc, List.cons_append]
  rfl

theorem endsWithTicks_wrap (d : List Char) :
    endsWithTicks ('\n' :: (d ++ "\n```".data)) = true := by
  rw [← wrap_decomp d, endsWithTicks]
  have hlen : ((('\n' :: d) ++ ['\n']) ++ backticks).length =
      (('\n' :: d) ++ ['\n']).length + 3 := by simp [backticks]
  rw [hlen]
  have he : (('\n' :: d) ++ ['\n']).length + 3 - 3 = (('\n' :: d) ++ ['\n']).length := by
    omega
  rw [he, List.drop_left]
  simp

theorem trim_take_wrap (d : List Char) (hh : d.head? = some '{')
    (hl : d.getLast? = some '}') :
    jsTrim (('\n' :: (d ++ "\n```".data)).take
      (('\n' :: (d ++ "\n```".data)).length - 3)) = d := by
  rw [← wrap_decomp d]
  have hlen : ((('\n' :: d) ++ ['\n']) ++ backticks).length =
      (('\n' :: d) ++ ['\n']).length + 3 := by simp [backticks]
  rw [hlen]
  have he : (('\n' :: d) ++ ['\n']).length + 3 - 3 = (('\n' :: d) ++ ['\n']).length := by
    omega
  rw [he, List.take_left, List.cons_append]
  exact jsTrim_nl_wrap d hh hl

theorem fenceCapture_tagged (d : List Char) (hh : d.head? = some '{')
    (hl : d.getLast? = some '}') :
    fenceCapture ("```json\n".data ++ (d ++ "\n```".data)) = some d := by
  have h3 : ("```json\n".data ++ (d ++ "\n```".data)).take 3 = backticks := rfl
  have hd3 : ("```json\n".data ++ (d ++ "\n```".data)).drop 3 =
      'j' :: 's' :: 'o' :: 'n' :: '\n' :: (d ++ "\n```".data) := rfl
  have h4 : ('j' :: 's' :: 'o' :: 'n' :: '\n' :: (d ++ "\n```".data)).take 4 =
      ['j', 's', 'o', 'n'] := rfl
  have hd4 : ('j' :: 's' :: 'o' :: 'n' :: '\n' :: (d ++ "\n```".data)).drop 4 =
      '\n' :: (d ++ "\n```".data) := rfl
  simp only [fenceCapture]
  rw [if_pos h3, hd3, hd4]
  rw [if_pos ⟨h4, endsWithTicks_wrap d⟩]
  rw [trim_take_wrap d hh hl]

theorem fenceCapture_untagged (d : List Char) (hh : d.head? = some '{')
    (hl : d.getLast? = some '}') :
    fenceCapture ("```\n".data ++ (d ++ "\n```".data)) = some d := by
  have h3 : ("```\n".data ++ (d ++ "\n```".data)).take 3 = backticks := rfl
  have hd3 : ("```\n".data ++ (d ++ "\n```".data)).drop 3 =
      '\n' :: (d ++ "\n```".data) := rfl
  simp only [fenceCapture]
  rw [if_pos h3, hd3]
  rw [if_neg ?hfirst]
  case hfirst =>
    intro hcon
    have h4' := congrArg List.head? hcon.1
    rw [show (('\n' :: (d ++ "\n```".data)).take 4).head? = some '\n' from rfl] at h4'
    rw [show (['j', 's', 'o', 'n'] : List Char).head? = some 'j' from rfl] at h4'
    exact absurd (Option.some.inj h4') (by decide)
  rw [if_pos (endsWithTicks_wrap d)]
  rw [trim_take_wrap d hh hl]

theorem take4_ne_json (d : List Char) (hh : d.head? = some '{') :
    ¬ d.take 4 = "json".data := by
  intro he
  have h' := congrArg List.head? he
  rcases d with _ | ⟨x, t⟩
  · exact absurd hh (by simp)
  · have hx : x = '{' := by simpa using hh
    subst hx
    rw [show (('{' :: t).take 4).head? = some '{' from rfl] at h'
    rw [show ("json".data).head? = some 'j' from rfl] at h'
    exact absurd (Option.some.inj h') (by decide)

theorem cleanJsonString_of_capture (ai s d : List Char)
    (htr : jsTrim ai = s) (hfc : fenceCapture s = some d)
    (hne : d ≠ []) (hh : d.head? = some '{') :
    cleanJsonString ai = d := by
  simp only [cleanJsonString]
  rw [htr, hfc]
  simp only []
  have hin : (if d.isEmpty = true then braceSlice s else d) = d := by
    rw [if_neg]
    intro hemp
    exact hne (List.isEmpty_iff.mp hemp)
  rw [hin, if_neg (take4_ne_json d hh)]

theorem cleanJsonString_of_brace (ai s d : List Char)
    (htr : jsTrim ai = s) (hfc : fenceCapture s = none)
    (hbs : braceSlice s = d) (hh : d.head? = some '{') :
    cleanJsonString ai = d := by
  simp only [cleanJsonString]
  rw [htr, hfc]
  simp only []
  rw [hbs, if_neg (take4_ne_json d hh)]

theorem parseJsonResponse_of_clean (ai d : List Char) (data : Json)
    (hc : cleanJsonString ai = d) (hp : jsonParse d = some data) :
    parseJsonResponse ai = .ok data := by
  rw [parseJsonResponse, hc, hp]

theorem jsTrim_prose (pre d post : List Char)
    (hh : d.head? = some '{') (hl : d.getLast? = some '}') :
    jsTrim (pre ++ (d ++ post)) =
      pre.dropWhile isJsWs ++ (d ++ (post.reverse.dropWhile isJsWs).reverse) := by
  have hne : d ≠ [] := by
    intro h0; rw [h0] at hh; exact Option.noConfusion hh
  rw [jsTrim]
  have e1 : List.dropWhile isJsWs (pre ++ (d ++ post)) =
      pre.dropWhile isJsWs ++ (d ++ post) := by
    rw [List.dropWhile_append]
    by_cases hp0 : (pre.dropWhile isJsWs).isEmpty
    · rw [if_pos hp0]
      have h0 : pre.dropWhile isJsWs = [] := List.isEmpty_iff.mp hp0
      rw [h0, List.nil_append]
      apply dropWhile_eq_self_of_head _ _ '{' ?_ rfl
      cases d with
      | nil => exact absurd rfl hne
      | cons x t =>
        have hx : x = '{' := by simpa using hh
        subst hx
        rfl
    · rw [if_neg hp0]
  rw [e1]
  have e2 : (pre.dropWhile isJsWs ++ (d ++ post)).reverse =
      post.reverse ++ (d.reverse ++ (pre.dropWhile isJsWs).reverse) := by
    simp
  rw [e2]
  have e3 : List.dropWhile isJsWs
        (post.reverse ++ (d.reverse ++ (pre.dropWhile isJsWs).reverse)) =
      post.reverse.dropWhile isJsWs ++
        (d.reverse ++ (pre.dropWhile isJsWs).reverse) := by
    rw [List.dropWhile_append]
    by_cases hp0 : (post.reverse.dropWhile isJsWs).isEmpty
    · rw [if_pos hp0]
      have h0 : post.reverse.dropWhile isJsWs = [] := List.isEmpty_iff.mp hp0
      rw [h0, List.nil_append]
      apply dropWhile_eq_self_of_head _ _ '}' ?_ rfl
      rcases hdr : d.reverse with _ | ⟨y, tr⟩
      · exfalso
        exact hne (List.reverse_eq_nil_iff.mp hdr)
      · have hy : y = '}' := by
          rw [← List.head?_reverse, hdr] at hl
          simpa using hl
        subst hy
        rfl
    · rw [if_neg hp0]
  rw [e3]
  simp

theorem braceSlice_prose (pre₁ d post₁ : List Char)
    (hpre : ∀ x ∈ pre₁, x ≠ '{') (hpost : ∀ x ∈ post₁, x ≠ '}')
    (hh : d.head? = some '{') (hl : d.getLast? = some '}') :
    braceSlice (pre₁ ++ (d ++ post₁)) = d := by
  have hne : d ≠ [] := by
    intro h0; rw [h0] at hh; exact Option.noConfusion hh
  have hd2 : 2 ≤ d.length := two_le_length_of_braces d hh hl
  have hfi : firstIdxOfChar (pre₁ ++ (d ++ post₁)) '{' = some pre₁.length := by
    rw [firstIdxOfChar, findIdx?_append_none _ _ _ ?hpre1 0]
    case hpre1 =>
      intro x hx
      simpa using hpre x hx
    rcases d with _ | ⟨x, t⟩
    · exact absurd rfl hne
    · have hx : x = '{' := by simpa using hh
      subst hx
      rw [List.cons_append, List.findIdx?_cons]
      simp
  have hla : lastIdxOfChar (pre₁ ++ (d ++ post₁)) '}' =
      some (pre₁.length + d.length - 1) := by
    rw [lastIdxOfChar]
    have hrev : (pre₁ ++ (d ++ post₁)).reverse =
        post₁.reverse ++ (d.reverse ++ pre₁.reverse) := by simp
    rw [hrev, findIdx?_append_none _ _ _ ?hpost1 0]
    case hpost1 =>
      intro x hx
      rw [List.mem_reverse] at hx
      simpa using hpost x hx
    rcases hdr : d.reverse with _ | ⟨y, dr⟩
    · exact absurd (List.reverse_eq_nil_iff.mp hdr) hne
    · have hy : y = '}' := by
        rw [← List.head?_reverse, hdr] at hl
        simpa using hl
      subst hy
      rw [List.cons_append, List.findIdx?_cons]
      rw [if_pos (show (fun x => decide (x = '}')) '}' = true from by decide)]
      simp only [Option.map_some', Option.some.injEq]
      have hlr : (pre₁ ++ (d ++ post₁)).length =
          pre₁.length + (d.length + post₁.length) := by simp
      have hdl : d.length = dr.length + 1 := by
        have hld := congrArg List.length hdr
        rw [List.length_reverse, List.length_cons] at hld
        omega
      rw [hlr]
      have hplen : post₁.reverse.length = post₁.length := List.length_reverse _
      rw [hplen]
      omega
  rw [braceSlice, hfi, hla]
  simp only []
  rw [if_pos (by omega : pre₁.length < pre₁.length + d.length - 1)]
  rw [jsSubstring]
  have hmin : min pre₁.length (pre₁.length + d.length - 1 + 1) = pre₁.length := by
    omega
  have hmax : max pre₁.length (pre₁.length + d.length - 1 + 1) =
      pre₁.length + d.length := by omega
  rw [hmin, hmax]
  have hres : pre₁ ++ (d ++ post₁) = (pre₁ ++ d) ++ post₁ := by
    rw [List.append_assoc]
  rw [hres]
  have hlenpd : pre₁.length + d.length = (pre₁ ++ d).length := by simp
  rw [hlenpd, List.take_left]
  exact List.drop_left pre₁ d

/-- Claim C3 (confirmed).  Final-buffer recovery strips conversational
wrapping.  First and second conjuncts: a well-formed object wrapped in a
triple-backtick fence — tagged `json` or untagged — is recovered by
extracting the fenced interior and parsing it, yielding exactly the
parsed object (and hence its three fields).  Third conjunct: an object
surrounded by leading and trailing prose (no `{` before it, no `}` after
it, and the trimmed buffer not starting with a fence) is recovered by
slicing from the first `{` to the last `}` and parsing that slice. -/
theorem c3_recovery_stripping :
    (∀ d data, d.head? = some '{' → d.getLast? = some '}' →
      jsonParse d = some data →
      parseJsonResponse ("```json\n".data ++ (d ++ "\n```".data)) = .ok data) ∧
    (∀ d data, d.head? = some '{' → d.getLast? = some '}' →
      jsonParse d = some data →
      parseJsonResponse ("```\n".data ++ (d ++ "\n```".data)) = .ok data) ∧
    (∀ pre d post data, '{' ∉ pre → '}' ∉ post →
      d.head? = some '{' → d.getLast? = some '}' →
      (jsTrim (pre ++ (d ++ post))).take 3 ≠ backticks →
      jsonParse d = some data →
      parseJsonResponse (pre ++ (d ++ post)) = .ok data) := by
  refine ⟨?_, ?_, ?_⟩
  · intro d data hh hl hp
    have hne : d ≠ [] := by
      intro h0; rw [h0] at hh; exact Option.noConfusion hh
    apply parseJsonResponse_of_clean _ d data ?_ hp
    apply cleanJsonString_of_capture _
      ("```json\n".data ++ (d ++ "\n```".data)) d ?_ ?_ hne hh
    · exact jsTrim_eq_self ("```json\n".data ++ (d ++ "\n```".data)) btick btick
        rfl rfl (by rw [List.getLast?_append, List.getLast?_append]; rfl) rfl
    · exact fenceCapture_tagged d hh hl
  · intro d data hh hl hp
    have hne : d ≠ [] := by
      intro h0; rw [h0] at hh; exact Option.noConfusion hh
    apply parseJsonResponse_of_clean _ d data ?_ hp
    apply cleanJsonString_of_capture _
      ("```\n".data ++ (d ++ "\n```".data)) d ?_ ?_ hne hh
    · exact jsTrim_eq_self ("```\n".data ++ (d ++ "\n```".data)) btick btick
        rfl rfl (by rw [List.getLast?_append, List.getLast?_append]; rfl) rfl
    · exact fenceCapture_untagged d hh hl
  · intro pre d post data hpre hpost hh hl hnf hp
    have htr : jsTrim (pre ++ (d ++ post)) =
        pre.dropWhile isJsWs ++ (d ++ (post.reverse.dropWhile isJsWs).reverse) :=
      jsTrim_prose pre d post hh hl
    apply parseJsonResponse_of_clean _ d data ?_ hp
    apply cleanJsonString_of_brace _
      (pre.dropWhile isJsWs ++ (d ++ (post.reverse.dropWhile isJsWs).reverse))
      d htr ?_ ?_ hh
    · rw [fenceCapture, if_neg]
      rw [← htr]
      exact hnf
    · apply braceSlice_prose
      · intro x hx hx'
        subst hx'
        exact hpre ((List.dropWhile_sublist _).subset hx)
      · intro x hx hx'
        subst hx'
        apply hpost
        have hx2 := List.mem_reverse.mp hx
        have hx3 := (List.dropWhile_sublist _).subset hx2
        exact List.mem_reverse.mp hx3
      · exact hh
      · exact hl

theorem c3_recovery_stripping_witness :
    parseJsonResponse
        "```json\n\x7b\"html\":\"<p>x</p>\",\"css\":\"\",\"js\":\"\"\x7d\n```".data =
      .ok (Json.obj [("html".data, Json.str "<p>x</p>".data),
        ("css".data, Json.str []), ("js".data, Json.str [])]) ∧
    parseJsonResponse
        "Sure! Here is the code: \x7b\"html\":\"a\",\"css\":\"b\",\"js\":\"c\"\x7d Hope it helps!".data =
      .ok (Json.obj [("html".data, Json.str "a".data),
        ("css".data, Json.str "b".data), ("js".data, Json.str "c".data)]) := by
  constructor
  · have heq : "```json\n\x7b\"html\":\"<p>x</p>\",\"css\":\"\",\"js\":\"\"\x7d\n```".data =
        "```json\n".data ++
          ("\x7b\"html\":\"<p>x</p>\",\"css\":\"\",\"js\":\"\"\x7d".data ++ "\n```".data) := by
      rfl
    rw [heq]
    exact c3_recovery_stripping.1
      "\x7b\"html\":\"<p>x</p>\",\"css\":\"\",\"js\":\"\"\x7d".data
      (Json.obj [("html".data, Json.str "<p>x</p>".data),
        ("css".data, Json.str []), ("js".data, Json.str [])]) rfl rfl rfl
  · have heq : "Sure! Here is the code: \x7b\"html\":\"a\",\"css\":\"b\",\"js\":\"c\"\x7d Hope it helps!".data =
        "Sure! Here is the code: ".data ++
          ("\x7b\"html\":\"a\",\"css\":\"b\",\"js\":\"c\"\x7d".data ++ " Hope it helps!".data) := by
      rfl
    rw [heq]
    exact c3_recovery_stripping.2.2
      "Sure! Here is the code: ".data
      "\x7b\"html\":\"a\",\"css\":\"b\",\"js\":\"c\"\x7d".data
      " Hope it helps!".data
      (Json.obj [("html".data, Json.str "a".data),
        ("css".data, Json.str "b".data), ("js".data, Json.str "c".data)])
      (by decide) (by decide) rfl rfl (by decide) rfl
